import Mathlib

/-!
Verification of the long_pt longitudinal RSA / searchlight analysis core.

Shallow embedding of the analysis core of the `long_pt` repository:

* `B_analyses/0_final_analyses/unified-rsa-pipeline.py`
  (ROI definition / region extraction, sphere construction, Fisher-z
  distinctiveness, longitudinal metric table, bootstrap aggregation);
* `B_analyses/05_searchlight_decoding/searchlight_decoding_cluster.py`
  (block pattern extraction, per-sphere SVM guards, cross-temporal
  standardization, Dice overlap);
* `B_analyses/05_searchlight_decoding/searchlight_decoding_longitudinal.py`
  (block pattern extraction, per-sphere classification guard, cross-temporal
  decoding, Dice coefficient).

Conventions of the embedding:

* numpy float arrays are modelled by exact rationals (`ℚ`) where the code only
  uses field arithmetic and comparisons, and by reals (`ℝ`) where the code
  applies transcendental functions (`np.arctanh`, `StandardScaler`'s square
  root of the variance);
* 3-D statistical volumes handed to the region extractor are modelled along a
  single spatial axis (a volume of shape `(n, 1, 1)`), so
  `scipy.ndimage.label` with its default 6-connectivity structure becomes
  run labelling along that axis, with labels assigned in scan order exactly
  as scipy assigns them;
* third-party classifier fits (`sklearn` `SVC.fit` / `cross_val_score`) are
  modelled as oracle parameters returning `Except`, mirroring a Python call
  that either returns a value or raises; everything this repository computes
  around those calls (guards, reshapes, scaling, exception handling) is
  modelled explicitly.
-/

namespace LongPt

/-! ## Generic list helpers (numpy primitives used by the scripts) -/

/-- Source: `np.argmax` on a list: index of the first occurrence of the maximum
(numpy returns the first maximal index).  `argmaxFirst [] = 0`, matching the
fact that the scripts never call it on empty data. -/
def argmaxFirst [LinearOrder α] : List α → Nat
  | [] => 0
  | x :: rest => if rest.all (fun y => decide (y ≤ x)) then 0 else argmaxFirst rest + 1

theorem argmaxFirst_cons [LinearOrder α] (x : α) (rest : List α) :
    argmaxFirst (x :: rest) =
      if rest.all (fun y => decide (y ≤ x)) then 0 else argmaxFirst rest + 1 := rfl

theorem argmaxFirst_lt_length [LinearOrder α] (l : List α) (h : l ≠ []) :
    argmaxFirst l < l.length := by
  induction l with
  | nil => simp at h
  | cons x rest ih =>
    rw [argmaxFirst_cons]
    by_cases hall : rest.all (fun y => decide (y ≤ x)) = true
    · simp [hall]
    · have hne : rest ≠ [] := by rintro rfl; simp at hall
      simp only [hall, if_false, List.length_cons]
      exact Nat.succ_lt_succ (ih hne)

/-- If the head of a list is not an upper bound of the tail, some tail element
strictly exceeds it. -/
theorem exists_gt_of_not_all [LinearOrder α] (x : α) (rest : List α)
    (hall : ¬ rest.all (fun y => decide (y ≤ x)) = true) :
    ∃ k, ∃ h : k < rest.length, x < rest[k] := by
  obtain ⟨y, hy, hxy⟩ : ∃ y ∈ rest, ¬ y ≤ x := by
    simpa [List.all_eq_true] using hall
  obtain ⟨k, hk, hkval⟩ := List.getElem_of_mem hy
  exact ⟨k, hk, hkval ▸ not_le.mp hxy⟩

theorem argmaxFirst_is_max [LinearOrder α] (l : List α) (d : α) (j : Nat)
    (hj : j < l.length) : l.getD j d ≤ l.getD (argmaxFirst l) d := by
  induction l generalizing j with
  | nil => simp at hj
  | cons x rest ih =>
    rw [argmaxFirst_cons]
    by_cases hall : rest.all (fun y => decide (y ≤ x)) = true
    · simp only [hall, if_true]
      rcases j with _ | j
      · simp
      · have hj' : j < rest.length := by simpa using hj
        simp only [List.getD_cons_succ, List.getD_cons_zero]
        have hmem : rest.getD j d ∈ rest := by
          rw [List.getD_eq_getElem rest d hj']
          exact List.getElem_mem hj'
        have := List.all_eq_true.mp hall _ hmem
        exact of_decide_eq_true this
    · simp only [hall, if_false]
      rcases j with _ | j
      · simp only [List.getD_cons_zero, List.getD_cons_succ]
        obtain ⟨k, hk, hxk⟩ := exists_gt_of_not_all x rest hall
        have h2 := ih k hk
        rw [List.getD_eq_getElem rest d hk] at h2
        exact le_of_lt (lt_of_lt_of_le hxk h2)
      · simp only [List.getD_cons_succ]
        exact ih j (by simpa using hj)

theorem argmaxFirst_first [LinearOrder α] (l : List α) (d : α) (j : Nat)
    (hj : j < l.length) (hv : l.getD (argmaxFirst l) d ≤ l.getD j d) :
    argmaxFirst l ≤ j := by
  induction l generalizing j with
  | nil => simp at hj
  | cons x rest ih =>
    rw [argmaxFirst_cons] at hv ⊢
    by_cases hall : rest.all (fun y => decide (y ≤ x)) = true
    · simp [hall]
    · simp only [hall, if_false] at hv ⊢
      rcases j with _ | j
      · exfalso
        obtain ⟨k, hk, hxk⟩ := exists_gt_of_not_all x rest hall
        have h2 := argmaxFirst_is_max rest d k hk
        rw [List.getD_eq_getElem rest d hk] at h2
        have hx : x < rest.getD (argmaxFirst rest) d := lt_of_lt_of_le hxk h2
        simp only [List.getD_cons_succ, List.getD_cons_zero] at hv
        exact absurd hv (not_le.mpr hx)
      · simp only [List.getD_cons_succ] at hv
        exact Nat.succ_le_succ (ih j (by simpa using hj) hv)

/-! ## Region Extractor (`define_rois` in unified-rsa-pipeline.py)

The per-(hemisphere, category, session) body of `define_rois` (lines 254-284):
threshold the `zstat` volume at `max(np.percentile(pos_vals, percentile), 1.64)`
inside the search mask, label connected components, select the component
picked by `np.argmax(sizes)`, and skip the session (`continue`) on any of the
guards.  Volumes are modelled along one spatial axis (shape `(n, 1, 1)`), so
`scipy.ndimage.label` with the default structure is run labelling in scan
order. -/

/-- Insertion sort, modelling the ascending sort inside `np.percentile`. -/
def sortedInsert (x : ℚ) : List ℚ → List ℚ
  | [] => [x]
  | y :: rest => if x ≤ y then x :: y :: rest else y :: sortedInsert x rest

def insertionSort : List ℚ → List ℚ
  | [] => []
  | x :: rest => sortedInsert x (insertionSort rest)

/-- Source: `np.percentile(a, q)` with the default linear-interpolation method:
`h = (n-1)*q/100`, result `a_sorted[⌊h⌋] + (h-⌊h⌋)*(a_sorted[⌊h⌋+1] - a_sorted[⌊h⌋])`.
The empty-input case (numpy would produce NaN) is given the value 0; the
callers below guard it away before use. -/
def np_percentile (a : List ℚ) (q : ℚ) : ℚ :=
  let s := insertionSort a
  let n := s.length
  if n = 0 then 0
  else
    let h : ℚ := (n - 1 : ℚ) * q / 100
    let i : Nat := (⌊h⌋).toNat
    let lo := s.getD i 0
    let hi := s.getD (i + 1) lo
    lo + (h - (i : ℚ)) * (hi - lo)

/-- Source: `zstat[search_mask & (zstat > 0)]`: the positive in-mask values in scan
order (numpy boolean indexing flattens in C order). -/
def pos_vals (zstat : List ℚ) (search_mask : List Bool) : List ℚ :=
  (zstat.zip search_mask).filterMap fun p => if p.2 ∧ 0 < p.1 then some p.1 else none

/-- Source: `thresh = max(np.percentile(pos_vals, percentile), 1.64)`. -/
def roiThreshold (zstat : List ℚ) (search_mask : List Bool) (percentile : ℚ) : ℚ :=
  max (np_percentile (pos_vals zstat search_mask) percentile) (164 / 100)

/-- Source: `suprathresh = (zstat > thresh) & search_mask`, voxel-wise. -/
def suprathreshOf (zstat : List ℚ) (search_mask : List Bool) (thresh : ℚ) : List Bool :=
  (zstat.zip search_mask).map fun p => decide (thresh < p.1) && p.2

/-- Source: `scipy.ndimage.label` on a volume of shape `(n, 1, 1)` with the default
connectivity: maximal runs of `true` along the axis receive labels 1, 2, ...
in scan order; background voxels receive 0. -/
def labelRunsAux : List Bool → Bool → Nat → List Nat
  | [], _, _ => []
  | b :: rest, prev, c =>
    if b then
      let c' := if prev then c else c + 1
      c' :: labelRunsAux rest true c'
    else 0 :: labelRunsAux rest false c

def labelRuns (bs : List Bool) : List Nat := labelRunsAux bs false 0

/-- Source: `n_clusters`: the number of labels assigned (the largest label). -/
def n_clusters (labeled : List Nat) : Nat := labeled.foldr max 0

/-- Source: `sizes = [(labeled == i).sum() for i in range(1, n_clusters + 1)]`. -/
def clusterSizes (labeled : List Nat) (n : Nat) : List Nat :=
  (List.range n).map fun i => (labeled.filter fun l => l = i + 1).length

/-- The labels computed by `define_rois` for one session. -/
def roiLabels (zstat : List ℚ) (search_mask : List Bool) (percentile : ℚ) : List Nat :=
  labelRuns (suprathreshOf zstat search_mask (roiThreshold zstat search_mask percentile))

/-- Source: `zstat * roi_mask` for the component with label `l` (True → value,
False → 0), the array whose `np.argmax` locates the peak. -/
def maskedStat (zstat : List ℚ) (labeled : List Nat) (l : Nat) : List ℚ :=
  (zstat.zip labeled).map fun p => if p.2 = l then p.1 else 0

/-- Source: `peak_z = zstat[np.unravel_index(np.argmax(zstat * roi_mask), shape)]`. -/
def peakOf (zstat : List ℚ) (labeled : List Nat) (l : Nat) : ℚ :=
  zstat.getD (argmaxFirst (maskedStat zstat labeled l)) 0

/-- The per-session ROI record stored by `define_rois` (`results[key][ses]`).
The stored centroid is a physical-space point through the session affine and
is not needed by any claim below; the remaining fields are kept. -/
structure RegionEntry where
  labelIdx : Nat
  n_voxels : Nat
  peak_z : ℚ
  threshold : ℚ
  deriving DecidableEq, Repr

/-- The per-session body of `define_rois`: `none` models a `continue`
(no entry recorded for the session), `some` models storing a record. -/
def define_roi_session (zstat : List ℚ) (search_mask : List Bool)
    (percentile : ℚ) (min_voxels : Nat) : Option RegionEntry :=
  let pv := pos_vals zstat search_mask
  if pv.length < min_voxels then none
  else
    let thresh := roiThreshold zstat search_mask percentile
    let labeled := roiLabels zstat search_mask percentile
    let n := n_clusters labeled
    if n = 0 then none
    else
      let sizes := clusterSizes labeled n
      let best := argmaxFirst sizes + 1
      if sizes.getD (best - 1) 0 < 5 then none
      else
        some { labelIdx := best, n_voxels := sizes.getD (best - 1) 0,
               peak_z := peakOf zstat labeled best, threshold := thresh }

/-- The selection rule written in the spec: among labels `1..n`, pick the
component with the largest voxel count, break ties by larger peak statistic,
then by lower label index (labels are assigned in scan order, so a lower label
is the component whose first voxel has the lower linear index). -/
def spec_select (labeled : List Nat) (zstat : List ℚ) (n : Nat) : Nat :=
  (List.range n).foldl
    (fun best j =>
      let l := j + 1
      let sl := (labeled.filter fun v => v = l).length
      let sb := (labeled.filter fun v => v = best).length
      if sl > sb ∨ (sl = sb ∧ peakOf zstat labeled best < peakOf zstat labeled l)
      then l else best)
    1

/-- The sizes list `define_rois` computes for a given input volume. -/
def codeSizes (zstat : List ℚ) (search_mask : List Bool) (percentile : ℚ) : List Nat :=
  clusterSizes (roiLabels zstat search_mask percentile)
    (n_clusters (roiLabels zstat search_mask percentile))

theorem length_clusterSizes (labeled : List Nat) (n : Nat) :
    (clusterSizes labeled n).length = n := by
  simp [clusterSizes]

/-- Concrete input refuting the spec's tie-break: two suprathreshold runs of
five voxels each; the first (lower linear index) peaks at 2, the second at 3.
The threshold is `max(np.percentile(pos_vals, 50), 1.64) = 1.64`. -/
def tieZstat : List ℚ :=
  [1, 1, 1, 1, 1, 2, 2, 2, 2, 2, 1, 1, 1, 1, 1, 9/5, 9/5, 3, 9/5, 9/5]

def tieMask : List Bool := List.replicate 20 true

unseal Rat.add Rat.mul Rat.inv Rat.sub in
/-- C2 counterexample: on `tieZstat` the two components tie at 5 voxels and
the second has the larger peak (3 > 2), but `define_rois` selects component 1
(`np.argmax` keeps the first maximal size and never consults the peak), while
the selection rule written in the spec would select component 2. -/
theorem roi_tiebreak_counterexample :
    (define_roi_session tieZstat tieMask 50 10).map RegionEntry.labelIdx = some 1
    ∧ spec_select (roiLabels tieZstat tieMask 50) tieZstat
        (n_clusters (roiLabels tieZstat tieMask 50)) = 2
    ∧ codeSizes tieZstat tieMask 50 = [5, 5]
    ∧ peakOf tieZstat (roiLabels tieZstat tieMask 50) 1 = 2
    ∧ peakOf tieZstat (roiLabels tieZstat tieMask 50) 2 = 3 := by
  decide

/-- C2 (amended): whenever `define_rois` records a region, the selected
component has the largest voxel count and, among components of that size, the
lowest label index (labels are assigned in voxel scan order) — the peak
statistic plays no part in the tie-break; the choice is uniquely determined. -/
theorem roi_tiebreak_amended (zstat : List ℚ) (mask : List Bool) (p : ℚ) (m : Nat)
    (r : RegionEntry) (h : define_roi_session zstat mask p m = some r) :
    r.labelIdx = argmaxFirst (codeSizes zstat mask p) + 1
    ∧ 1 ≤ r.labelIdx ∧ r.labelIdx ≤ n_clusters (roiLabels zstat mask p)
    ∧ (∀ j, j < n_clusters (roiLabels zstat mask p) →
        (codeSizes zstat mask p).getD j 0 ≤ (codeSizes zstat mask p).getD (r.labelIdx - 1) 0)
    ∧ (∀ j, j < n_clusters (roiLabels zstat mask p) →
        (codeSizes zstat mask p).getD (r.labelIdx - 1) 0 ≤ (codeSizes zstat mask p).getD j 0 →
        r.labelIdx ≤ j + 1) := by
  classical
  simp only [define_roi_session] at h
  split at h
  · exact absurd h (by simp)
  · split at h
    · exact absurd h (by simp)
    · rename_i hn
      split at h
      · exact absurd h (by simp)
      · have hx := Option.some.inj h
        have hr : r.labelIdx = argmaxFirst (codeSizes zstat mask p) + 1 := by
          rw [← hx]
          rfl
        have hlen : (codeSizes zstat mask p).length = n_clusters (roiLabels zstat mask p) :=
          length_clusterSizes _ _
        have hne : codeSizes zstat mask p ≠ [] := by
          intro hnil
          rw [hnil] at hlen
          exact hn hlen.symm
        have hmax := argmaxFirst_lt_length (codeSizes zstat mask p) hne
        refine ⟨hr, by omega, by omega, ?_, ?_⟩
        · intro j hj
          have : r.labelIdx - 1 = argmaxFirst (codeSizes zstat mask p) := by omega
          rw [this]
          exact argmaxFirst_is_max _ 0 j (by omega)
        · intro j hj hle
          have heq : r.labelIdx - 1 = argmaxFirst (codeSizes zstat mask p) := by omega
          rw [heq] at hle
          have := argmaxFirst_first (codeSizes zstat mask p) 0 j (by omega) hle
          omega

unseal Rat.add Rat.mul Rat.inv Rat.sub in
/-- C2 witness data: evaluates the amended selection facts on `tieZstat`. -/
theorem roi_tiebreak_amended_witness :
    define_roi_session tieZstat tieMask 50 10 = some ⟨1, 5, 2, 41/25⟩
    ∧ (1 : Nat) = argmaxFirst (codeSizes tieZstat tieMask 50) + 1 :=
  ⟨by decide, (roi_tiebreak_amended tieZstat tieMask 50 10 ⟨1, 5, 2, 41/25⟩ (by decide)).1⟩

/-- C3 witness input: ten in-mask positive voxels (passing the
`min_voxels = 10` gate) whose only suprathreshold component has 2 < 5
voxels. -/
def smallZstat : List ℚ := [2, 2, 1, 1, 1, 1, 1, 1, 1, 1, 1, 1]

def smallMask : List Bool := List.replicate 12 true

/-- C3: if no connected component reaches the 5-voxel floor, `define_rois`
records nothing for the session (`continue`), and any recorded region always
has at least 5 (in particular more than zero) voxels. -/
theorem roi_absent_on_small_components (zstat : List ℚ) (mask : List Bool)
    (p : ℚ) (m : Nat) :
    ((∀ j, j < n_clusters (roiLabels zstat mask p) →
        (codeSizes zstat mask p).getD j 0 < 5) →
      define_roi_session zstat mask p m = none)
    ∧ (define_roi_session zstat mask p m = none ∨
        ∃ r, define_roi_session zstat mask p m = some r ∧ 5 ≤ r.n_voxels ∧ 0 < r.n_voxels) := by
  classical
  constructor
  · intro hsmall
    simp only [define_roi_session]
    split
    · rfl
    · split
      · rfl
      · rename_i hn
        have hlen : (codeSizes zstat mask p).length = n_clusters (roiLabels zstat mask p) :=
          length_clusterSizes _ _
        have hne : codeSizes zstat mask p ≠ [] := by
          intro hnil
          rw [hnil] at hlen
          exact hn hlen.symm
        have hmax := argmaxFirst_lt_length (codeSizes zstat mask p) hne
        have hlt := hsmall (argmaxFirst (codeSizes zstat mask p)) (by omega)
        simp only [codeSizes] at hlt
        simp only [Nat.add_sub_cancel]
        rw [if_pos hlt]
  · simp only [define_roi_session]
    split
    · exact Or.inl rfl
    · split
      · exact Or.inl rfl
      · split
        · exact Or.inl rfl
        · rename_i hbig
          refine Or.inr ⟨_, rfl, ?_, ?_⟩ <;> simp only [] <;> omega

unseal Rat.add Rat.mul Rat.inv Rat.sub in
/-- C3 witness: on `smallZstat` every component is below the floor and no
entry is recorded; likewise on an all-zero statistical volume. -/
theorem roi_absent_witness :
    define_roi_session smallZstat smallMask 90 10 = none
    ∧ define_roi_session (List.replicate 12 (0 : ℚ)) smallMask 90 10 = none :=
  ⟨(roi_absent_on_small_components smallZstat smallMask 90 10).1 (by decide),
   (roi_absent_on_small_components (List.replicate 12 (0 : ℚ)) smallMask 90 10).1 (by decide)⟩

/-! ## Geometry Utilities (`create_sphere` in unified-rsa-pipeline.py)

`create_sphere(center_mni, affine, shape, radius)` builds the full voxel grid
of the volume, maps it through the affine to physical coordinates, and sets
`mask[c] = True` for every grid point whose Euclidean distance to the center
is at most `radius`, starting from an all-`False` mask. -/

/-- The top 3 rows of a 4x4 voxel-to-world affine (the bottom row is
`0 0 0 1`), as used by `nib.affines.apply_affine`. -/
structure Affine34 where
  m00 : ℚ
  m01 : ℚ
  m02 : ℚ
  m03 : ℚ
  m10 : ℚ
  m11 : ℚ
  m12 : ℚ
  m13 : ℚ
  m20 : ℚ
  m21 : ℚ
  m22 : ℚ
  m23 : ℚ

/-- Source: `nib.affines.apply_affine`: exact affine application, no interpolation. -/
def apply_affine (A : Affine34) (v : Nat × Nat × Nat) : ℚ × ℚ × ℚ :=
  (A.m00 * v.1 + A.m01 * v.2.1 + A.m02 * v.2.2 + A.m03,
   A.m10 * v.1 + A.m11 * v.2.1 + A.m12 * v.2.2 + A.m13,
   A.m20 * v.1 + A.m21 * v.2.1 + A.m22 * v.2.2 + A.m23)

/-- Squared Euclidean distance between two physical points. -/
def sqDist (a b : ℚ × ℚ × ℚ) : ℚ :=
  (a.1 - b.1) ^ 2 + (a.2.1 - b.2.1) ^ 2 + (a.2.2 - b.2.2) ^ 2

/-- Source: `np.linalg.norm(a - b) <= radius`, rendered exactly over the rationals:
a nonnegative square root is at most `radius` iff `radius` is nonnegative and
the squared distance is at most `radius ^ 2`. -/
def distLE (a b : ℚ × ℚ × ℚ) (radius : ℚ) : Prop :=
  0 ≤ radius ∧ sqDist a b ≤ radius ^ 2

instance (a b : ℚ × ℚ × ℚ) (radius : ℚ) : Decidable (distLE a b radius) := by
  unfold distLE
  infer_instance

/-- Source: `np.meshgrid(arange s1, arange s2, arange s3, indexing='ij')` reshaped to
the list of all voxel index triples, in C scan order. -/
def gridOf (shape : Nat × Nat × Nat) : List (Nat × Nat × Nat) :=
  (List.range shape.1).flatMap fun i =>
    (List.range shape.2.1).flatMap fun j =>
      (List.range shape.2.2).map fun k => (i, j, k)

/-- A voxel index triple lies inside the volume bounds. -/
def inBounds (shape : Nat × Nat × Nat) (v : Nat × Nat × Nat) : Prop :=
  v.1 < shape.1 ∧ v.2.1 < shape.2.1 ∧ v.2.2 < shape.2.2

instance (shape v : Nat × Nat × Nat) : Decidable (inBounds shape v) := by
  unfold inBounds
  infer_instance

/-- Source: `create_sphere`: start from `np.zeros(shape, dtype=bool)` and set to
`True` exactly the grid points within `radius` of the center through the
affine. -/
def create_sphere (center : ℚ × ℚ × ℚ) (A : Affine34) (shape : Nat × Nat × Nat)
    (radius : ℚ) : Nat × Nat × Nat → Bool :=
  let grid := gridOf shape
  let selected := grid.filter fun c => decide (distLE (apply_affine A c) center radius)
  selected.foldl (fun mask c => Function.update mask c true) (fun _ => false)

theorem foldl_update_true (l : List (Nat × Nat × Nat)) (m : Nat × Nat × Nat → Bool)
    (v : Nat × Nat × Nat) :
    (l.foldl (fun mask c => Function.update mask c true) m) v =
      if v ∈ l then true else m v := by
  induction l generalizing m with
  | nil => simp
  | cons c rest ih =>
    simp only [List.foldl_cons, ih, List.mem_cons]
    by_cases hv : v ∈ rest
    · simp [hv]
    · by_cases hvc : v = c
      · subst hvc
        simp [hv, Function.update]
      · simp [hv, hvc, Function.update]

theorem mem_gridOf (shape v : Nat × Nat × Nat) : v ∈ gridOf shape ↔ inBounds shape v := by
  obtain ⟨i, j, k⟩ := v
  simp only [gridOf, inBounds, List.mem_flatMap, List.mem_map, List.mem_range, Prod.mk.injEq]
  constructor
  · rintro ⟨a, ha, b, hb, c, hc, rfl, rfl, rfl⟩
    exact ⟨ha, hb, hc⟩
  · rintro ⟨hi, hj, hk⟩
    exact ⟨i, hi, j, hj, k, hk, rfl, rfl, rfl⟩

/-- C4: the sphere mask is `True` exactly at in-bounds voxels whose physical
distance to the center (through the affine) is at most the radius; if no
grid point lies within the radius, the mask is identically `False` (and the
construction is total — no exception path exists). -/
theorem create_sphere_correct (center : ℚ × ℚ × ℚ) (A : Affine34)
    (shape : Nat × Nat × Nat) (radius : ℚ) (v : Nat × Nat × Nat) :
    (create_sphere center A shape radius v = true ↔
      inBounds shape v ∧ distLE (apply_affine A v) center radius)
    ∧ ((∀ w ∈ gridOf shape, ¬ distLE (apply_affine A w) center radius) →
        create_sphere center A shape radius v = false) := by
  have hchar : create_sphere center A shape radius v = true ↔
      inBounds shape v ∧ distLE (apply_affine A v) center radius := by
    unfold create_sphere
    rw [foldl_update_true]
    constructor
    · intro h
      by_cases hmem : v ∈ (gridOf shape).filter
          fun c => decide (distLE (apply_affine A c) center radius)
      · rw [List.mem_filter] at hmem
        exact ⟨(mem_gridOf shape v).mp hmem.1, of_decide_eq_true hmem.2⟩
      · rw [if_neg hmem] at h
        exact absurd h (by simp)
    · intro ⟨hb, hd⟩
      have : v ∈ (gridOf shape).filter
          fun c => decide (distLE (apply_affine A c) center radius) := by
        rw [List.mem_filter]
        exact ⟨(mem_gridOf shape v).mpr hb, decide_eq_true hd⟩
      rw [if_pos this]
  refine ⟨hchar, fun hnone => ?_⟩
  by_cases h : create_sphere center A shape radius v = true
  · obtain ⟨hb, hd⟩ := hchar.mp h
    exact absurd hd (hnone v ((mem_gridOf shape v).mpr hb))
  · simpa using h

/-- Identity affine used in the C4 witness. -/
def idAffine : Affine34 :=
  { m00 := 1, m01 := 0, m02 := 0, m03 := 0,
    m10 := 0, m11 := 1, m12 := 0, m13 := 0,
    m20 := 0, m21 := 0, m22 := 1, m23 := 0 }

unseal Rat.add Rat.mul Rat.inv Rat.sub in
/-- C4 witness: a sphere of radius 1 centred at physical `(10,10,10)` misses a
`2x2x2` volume under the identity affine: the hypothesis of the all-`False`
clause holds and the mask is `False`; the characterization also evaluates on
an in-sphere voxel of the same volume for a centre at the origin. -/
theorem create_sphere_correct_witness :
    create_sphere (10, 10, 10) idAffine (2, 2, 2) 1 (0, 0, 0) = false
    ∧ create_sphere (0, 0, 0) idAffine (2, 2, 2) 1 (1, 0, 0) = true :=
  ⟨(create_sphere_correct (10, 10, 10) idAffine (2, 2, 2) 1 (0, 0, 0)).2 (by decide),
   (create_sphere_correct (0, 0, 0) idAffine (2, 2, 2) 1 (1, 0, 0)).1.mpr (by decide)⟩

/-! ## Pattern Extractor

`extract_block_patterns` (searchlight_decoding_longitudinal.py, lines 219-264)
and `extract_blocks` (searchlight_decoding_cluster.py, lines 160-168).
A 4-D functional volume is modelled as a list of voxel time series, each of
length `n_volumes`; one extracted Pattern is a list with one (window-averaged)
value per voxel. -/

/-- Source: `np.mean(func_data[..., s:e], axis=-1)` for one voxel time series:
the mean of the slice `ts[s:e]`. -/
def sliceMean (ts : List ℚ) (s e : Nat) : ℚ :=
  let w := (ts.drop s).take (e - s)
  w.sum / (w.length : ℚ)

/-- Source: `extract_block_patterns` (longitudinal variant): per event,
`start_vol = int(np.floor((onset+hrf_delay)/tr))` clamped below by 0,
`end_vol = int(np.ceil((onset+duration+hrf_delay)/tr))` clamped above by
`n_volumes`; events with an empty clamped window are skipped. -/
def extract_block_patterns (func : List (List ℚ)) (nvol : Nat)
    (timing : List (ℚ × ℚ)) (tr lag : ℚ) : List (List ℚ) :=
  timing.filterMap fun od =>
    let s : ℤ := max 0 ⌊(od.1 + lag) / tr⌋
    let e : ℤ := min (nvol : ℤ) ⌈(od.1 + od.2 + lag) / tr⌉
    if s < e then some (func.map fun ts => sliceMean ts s.toNat e.toNat) else none

/-- Python `int()` applied to a float: truncation toward zero. -/
def pyInt (q : ℚ) : ℤ := if 0 ≤ q then ⌊q⌋ else ⌈q⌉

/-- Source: `extract_blocks` (cluster variant): timing rows are
`(onset, duration, amplitude)`; `start_vol = int((onset+hrf_delay)/tr)`,
`end_vol = min(int((onset+duration+hrf_delay)/tr), n_volumes)`; only the end
is clamped, both endpoints use `int()` truncation, and an event is kept when
`start_vol < end_vol`.  (The enclosing `np.array(...) if patterns else None`
wrapper is not part of the per-event window logic.) -/
def extract_blocks (func : List (List ℚ)) (nvol : Nat)
    (timing : List (ℚ × ℚ × ℚ)) (tr lag : ℚ) : List (List ℚ) :=
  timing.filterMap fun row =>
    let s : ℤ := pyInt ((row.1 + lag) / tr)
    let e : ℤ := min (nvol : ℤ) (pyInt ((row.1 + row.2.1 + lag) / tr))
    if s < e then some (func.map fun ts => sliceMean ts s.toNat e.toNat) else none

/-- The spec's temporal window, written as the spec reads: the set of sample
indices `t` of the volume with `start ≤ t < end`, where `start` and `end`
come from the supplied rounding functions and are clamped to the temporal
bounds.  Instantiated with `Int.floor` / `Int.ceil` this is the claimed
`floor((onset+lag)/TR) .. ceil((onset+duration+lag)/TR)` window. -/
def spec_window (sRound eRound : ℚ → ℤ) (onset duration tr lag : ℚ)
    (nvol : Nat) : List Nat :=
  (List.range nvol).filter fun (t : Nat) =>
    decide (max 0 (sRound ((onset + lag) / tr)) ≤ (t : ℤ)) &&
    decide ((t : ℤ) < min (nvol : ℤ) (eRound ((onset + duration + lag) / tr)))

/-- Spec reading of one event: average all included temporal samples
voxel-wise; an event whose clamped window is empty contributes no Pattern. -/
def spec_event_pattern (sRound eRound : ℚ → ℤ) (func : List (List ℚ))
    (nvol : Nat) (onset duration tr lag : ℚ) : Option (List ℚ) :=
  let w := spec_window sRound eRound onset duration tr lag nvol
  if w.isEmpty then none
  else some (func.map fun ts => ((w.map fun t => ts.getD t 0).sum) / (w.length : ℚ))

/-- The Pattern Extractor as the claim states it: floor for the window start,
ceil for the window end. -/
def spec_extract (func : List (List ℚ)) (nvol : Nat) (timing : List (ℚ × ℚ))
    (tr lag : ℚ) : List (List ℚ) :=
  timing.filterMap fun od =>
    spec_event_pattern Int.floor Int.ceil func nvol od.1 od.2 tr lag

/-- The window rule `extract_blocks` actually implements: `int()` truncation
at both endpoints. -/
def spec_extract_trunc (func : List (List ℚ)) (nvol : Nat)
    (timing : List (ℚ × ℚ × ℚ)) (tr lag : ℚ) : List (List ℚ) :=
  timing.filterMap fun row =>
    spec_event_pattern pyInt pyInt func nvol row.1 row.2.1 tr lag

theorem filter_range_eq_range' (n a b : Nat) :
    ((List.range n).filter fun t => decide (a ≤ t) && decide (t < b)) =
      List.range' a (min n b - a) := by
  induction n with
  | zero => simp
  | succ n ih =>
    rw [List.range_succ, List.filter_append, ih]
    by_cases hnb : n < b
    · have hmin : min n b = n := by omega
      have hmin' : min (n + 1) b = n + 1 := by omega
      rw [hmin, hmin']
      by_cases han : a ≤ n
      · have h1 : (List.filter (fun t => decide (a ≤ t) && decide (t < b)) [n]) = [n] := by
          simp [List.filter, han, hnb]
        rw [h1]
        have h2 : n + 1 - a = (n - a) + 1 := by omega
        rw [h2, List.range'_concat]
        have h3 : a + 1 * (n - a) = n := by omega
        rw [h3]
      · have h1 : (List.filter (fun t => decide (a ≤ t) && decide (t < b)) [n]) = [] := by
          simp [List.filter, han]
        have h2 : n - a = 0 := by omega
        have h3 : n + 1 - a = 0 := by omega
        rw [h1, h2, h3]
        simp
    · have hmin : min n b = b := by omega
      have hmin' : min (n + 1) b = b := by omega
      have h1 : (List.filter (fun t => decide (a ≤ t) && decide (t < b)) [n]) = [] := by
        simp [List.filter, hnb]
      rw [hmin, hmin', h1, List.append_nil]

theorem slice_eq_map_range' (ts : List ℚ) (s k : Nat) (h : s + k ≤ ts.length) :
    (ts.drop s).take k = (List.range' s k).map fun t => ts.getD t 0 := by
  induction k generalizing s with
  | zero => simp
  | succ k ih =>
    have hs : s < ts.length := by omega
    rw [List.drop_eq_getElem_cons hs, List.range'_succ]
    simp only [List.take_succ_cons, List.map_cons]
    rw [List.getD_eq_getElem ts 0 hs]
    congr 1
    have := ih (s + 1) (by omega)
    rw [← this]

/-- An integer window `[s, E)` with `0 ≤ s` and `E ≤ nvol`: the slice-based
averaging of the code equals the index-set averaging of the spec, and the
empty-window guards agree. -/
theorem window_eq (func : List (List ℚ)) (nvol : Nat) (s E : ℤ)
    (hs : 0 ≤ s) (hE : E ≤ (nvol : ℤ))
    (hrect : ∀ ts ∈ func, ts.length = nvol) :
    (if s < E then some (func.map fun ts => sliceMean ts s.toNat E.toNat) else none) =
      (let w := (List.range nvol).filter fun (t : Nat) =>
          decide (s ≤ (t : ℤ)) && decide ((t : ℤ) < E);
       if w.isEmpty then none
       else some (func.map fun ts => ((w.map fun t => ts.getD t 0).sum) / (w.length : ℚ))) := by
  have hw : ((List.range nvol).filter fun (t : Nat) =>
      decide (s ≤ (t : ℤ)) && decide ((t : ℤ) < E)) =
      List.range' s.toNat (E.toNat - s.toNat) := by
    have hcong : ((List.range nvol).filter fun (t : Nat) =>
        decide (s ≤ (t : ℤ)) && decide ((t : ℤ) < E)) =
        (List.range nvol).filter fun (t : Nat) => decide (s.toNat ≤ t) && decide (t < E.toNat) := by
      apply List.filter_congr
      intro t ht
      have h1 : decide (s ≤ (t : ℤ)) = decide (s.toNat ≤ t) := by
        apply decide_eq_decide.mpr
        omega
      have h2 : decide ((t : ℤ) < E) = decide (t < E.toNat) := by
        apply decide_eq_decide.mpr
        omega
      rw [h1, h2]
    rw [hcong, filter_range_eq_range']
    have : min nvol E.toNat = E.toNat := by omega
    rw [this]
  rw [hw]
  by_cases hlt : s < E
  · rw [if_pos hlt]
    have hne : ¬ (List.range' s.toNat (E.toNat - s.toNat)).isEmpty := by
      simp only [List.isEmpty_iff, ← List.length_eq_zero, List.length_range']
      omega
    simp only [hne, if_false, Bool.false_eq_true, if_neg (by simpa using hne)]
    congr 1
    apply List.map_congr_left
    intro ts hts
    have hlen := hrect ts hts
    unfold sliceMean
    have hslice : (ts.drop s.toNat).take (E.toNat - s.toNat) =
        (List.range' s.toNat (E.toNat - s.toNat)).map fun t => ts.getD t 0 := by
      apply slice_eq_map_range'
      omega
    have harg : E.toNat - s.toNat = E.toNat - s.toNat := rfl
    simp only [hslice, List.length_map, List.length_range']
  · rw [if_neg hlt]
    have hemp : (List.range' s.toNat (E.toNat - s.toNat)).isEmpty := by
      simp only [List.isEmpty_iff, ← List.length_eq_zero, List.length_range']
      omega
    simp [hemp]

unseal Rat.add Rat.mul Rat.inv Rat.sub in
/-- C5 counterexample: one voxel whose time series is `0..11`, one event with
onset 1, duration 12, TR 2, lag 4.  The claimed floor-to-ceil window is
`[2, 9)` with mean 5 (and `extract_block_patterns` produces exactly that),
but `extract_blocks` truncates the end to `int(17/2) = 8`, window `[2, 8)`,
mean 9/2. -/
theorem pattern_window_counterexample :
    extract_blocks [[0, 1, 2, 3, 4, 5, 6, 7, 8, 9, 10, 11]] 12 [(1, 12, 1)] 2 4 = [[9/2]]
    ∧ spec_extract [[0, 1, 2, 3, 4, 5, 6, 7, 8, 9, 10, 11]] 12 [(1, 12)] 2 4 = [[5]]
    ∧ ([[(9 : ℚ)/2]] : List (List ℚ)) ≠ [[5]] := by
  refine ⟨by decide, by decide, by decide⟩

/-- C5 (amended): the longitudinal `extract_block_patterns` implements the
claimed floor-to-ceil clamped window with empty windows skipped, for every
rectangular input; the cluster `extract_blocks` instead implements the
truncation-at-both-endpoints window (for the nonnegative onsets/lags and
positive TR the pipeline uses, where its missing start clamp cannot act). -/
theorem pattern_window_amended (func : List (List ℚ)) (nvol : Nat)
    (timing : List (ℚ × ℚ)) (timing3 : List (ℚ × ℚ × ℚ)) (tr lag : ℚ)
    (hrect : ∀ ts ∈ func, ts.length = nvol)
    (htr : 0 < tr) (hlag : 0 ≤ lag)
    (honset : ∀ row ∈ timing3, 0 ≤ row.1) :
    extract_block_patterns func nvol timing tr lag = spec_extract func nvol timing tr lag
    ∧ extract_blocks func nvol timing3 tr lag = spec_extract_trunc func nvol timing3 tr lag := by
  constructor
  · unfold extract_block_patterns spec_extract
    apply List.filterMap_congr
    intro od hod
    unfold spec_event_pattern spec_window
    exact window_eq func nvol (max 0 ⌊(od.1 + lag) / tr⌋)
      (min (nvol : ℤ) ⌈(od.1 + od.2 + lag) / tr⌉)
      (le_max_left 0 _) (min_le_left _ _) hrect
  · unfold extract_blocks spec_extract_trunc
    apply List.filterMap_congr
    intro row hrow
    unfold spec_event_pattern spec_window
    have h0 : (0 : ℚ) ≤ (row.1 + lag) / tr :=
      div_nonneg (by linarith [honset row hrow]) (le_of_lt htr)
    have hfl : (0 : ℤ) ≤ pyInt ((row.1 + lag) / tr) := by
      unfold pyInt
      rw [if_pos h0]
      exact Int.floor_nonneg.mpr h0
    have hmax : max 0 (pyInt ((row.1 + lag) / tr)) = pyInt ((row.1 + lag) / tr) :=
      max_eq_right hfl
    rw [hmax]
    exact window_eq func nvol (pyInt ((row.1 + lag) / tr))
      (min (nvol : ℤ) (pyInt ((row.1 + row.2.1 + lag) / tr)))
      hfl (min_le_left _ _) hrect

unseal Rat.add Rat.mul Rat.inv Rat.sub in
/-- C5 witness: the amended equalities evaluated on the counterexample data. -/
theorem pattern_window_amended_witness :
    extract_block_patterns [[0, 1, 2, 3, 4, 5, 6, 7, 8, 9, 10, 11]] 12 [(1, 12)] 2 4 =
      spec_extract [[0, 1, 2, 3, 4, 5, 6, 7, 8, 9, 10, 11]] 12 [(1, 12)] 2 4
    ∧ extract_blocks [[0, 1, 2, 3, 4, 5, 6, 7, 8, 9, 10, 11]] 12 [(1, 12, 1)] 2 4 =
      spec_extract_trunc [[0, 1, 2, 3, 4, 5, 6, 7, 8, 9, 10, 11]] 12 [(1, 12, 1)] 2 4 :=
  ⟨(pattern_window_amended [[0, 1, 2, 3, 4, 5, 6, 7, 8, 9, 10, 11]] 12 [(1, 12)]
      [(1, 12, 1)] 2 4 (by decide) (by decide) (by decide) (by decide)).1,
   (pattern_window_amended [[0, 1, 2, 3, 4, 5, 6, 7, 8, 9, 10, 11]] 12 [(1, 12)]
      [(1, 12, 1)] 2 4 (by decide) (by decide) (by decide) (by decide)).2⟩

/-! ## Representational Geometry Engine: Fisher-z distinctiveness

`extract_rsa_patterns` stores `fisher_corr = np.arctanh(np.clip(corr_mat,
-0.999, 0.999))` and `compute_all_metrics` averages selected off-diagonal
entries of `fisher_corr` (`np.mean(...)`) — the transform is applied before
the averaging.  `np.arctanh x = log((1+x)/(1-x))/2`. -/

/-- Source: `np.arctanh` on the open interval `(-1, 1)`. -/
noncomputable def arctanh (x : ℝ) : ℝ := Real.log ((1 + x) / (1 - x)) / 2

/-- Source: `np.clip(x, lo, hi)`. -/
def np_clip (x lo hi : ℝ) : ℝ := min (max x lo) hi

/-- The Fisher transform as coded: `np.arctanh(np.clip(r, -0.999, 0.999))`. -/
noncomputable def fisher_z (r : ℝ) : ℝ := arctanh (np_clip r (-(999 / 1000)) (999 / 1000))

/-- The clip is inert strictly inside the clipped range. -/
theorem fisher_z_eq_arctanh (r : ℝ) (hlo : -(999 / 1000) ≤ r) (hhi : r ≤ 999 / 1000) :
    fisher_z r = arctanh r := by
  unfold fisher_z np_clip
  rw [max_eq_left hlo, min_eq_left hhi]

/-- C1 counterexample: `r1 = 1/2` and `r2 = -1/2` are distinct values in the
clipped interior range, yet Fisher-z-then-average and average-then-Fisher-z
agree there (both are 0, `arctanh` being odd). -/
theorem fisher_order_counterexample :
    ((1 : ℝ)/2 ≠ -(1/2))
    ∧ (-1 < (1 : ℝ)/2 ∧ (1 : ℝ)/2 < 1) ∧ (-1 < -((1 : ℝ)/2) ∧ -((1 : ℝ)/2) < 1)
    ∧ (fisher_z (1/2) + fisher_z (-(1/2))) / 2 = fisher_z ((1/2 + -(1/2)) / 2) := by
  refine ⟨by norm_num, ⟨by norm_num, by norm_num⟩, ⟨by norm_num, by norm_num⟩, ?_⟩
  rw [fisher_z_eq_arctanh (1/2) (by norm_num) (by norm_num),
    fisher_z_eq_arctanh (-(1/2)) (by norm_num) (by norm_num)]
  have hz : ((1 : ℝ)/2 + -(1/2)) / 2 = 0 := by norm_num
  rw [hz, fisher_z_eq_arctanh 0 (by norm_num) (by norm_num)]
  unfold arctanh
  have h1 : ((1 : ℝ) + 1/2) / (1 - 1/2) = 3 := by norm_num
  have h2 : ((1 : ℝ) + -(1/2)) / (1 - -(1/2)) = 3⁻¹ := by norm_num
  have h3 : ((1 : ℝ) + 0) / (1 - 0) = 1 := by norm_num
  rw [h1, h2, h3, Real.log_inv, Real.log_one]
  ring

/-- C1 (amended): for distinct `r1 ≠ r2` in the clipped interior range whose
sum is nonzero (equivalently `r2 ≠ -r1`), transforming before averaging and
averaging before transforming genuinely differ; at `r2 = -r1` the oddness of
`arctanh` makes the two orders coincide, which is what the counterexample
exploits. -/
theorem fisher_order_amended (r1 r2 : ℝ) (h1a : -1 < r1) (h1b : r1 < 1)
    (h2a : -1 < r2) (h2b : r2 < 1) (hne : r1 ≠ r2) (hsum : r1 + r2 ≠ 0) :
    (arctanh r1 + arctanh r2) / 2 ≠ arctanh ((r1 + r2) / 2) := by
  intro heq
  have e1 : (0 : ℝ) < 1 + r1 := by linarith
  have e2 : (0 : ℝ) < 1 - r1 := by linarith
  have e3 : (0 : ℝ) < 1 + r2 := by linarith
  have e4 : (0 : ℝ) < 1 - r2 := by linarith
  have em1 : (0 : ℝ) < 1 + (r1 + r2) / 2 := by linarith
  have em2 : (0 : ℝ) < 1 - (r1 + r2) / 2 := by linarith
  have hA : (0 : ℝ) < (1 + r1) / (1 - r1) := div_pos e1 e2
  have hB : (0 : ℝ) < (1 + r2) / (1 - r2) := div_pos e3 e4
  have hC : (0 : ℝ) < (1 + (r1 + r2) / 2) / (1 - (r1 + r2) / 2) := div_pos em1 em2
  unfold arctanh at heq
  have hmul : Real.log ((1 + r1) / (1 - r1) * ((1 + r2) / (1 - r2)))
      = Real.log (((1 + (r1 + r2) / 2) / (1 - (r1 + r2) / 2)) ^ 2) := by
    rw [Real.log_mul hA.ne' hB.ne', Real.log_pow]
    push_cast
    linarith
  have habeq : (1 + r1) / (1 - r1) * ((1 + r2) / (1 - r2))
      = ((1 + (r1 + r2) / 2) / (1 - (r1 + r2) / 2)) ^ 2 := by
    have hAB : (0 : ℝ) < (1 + r1) / (1 - r1) * ((1 + r2) / (1 - r2)) := mul_pos hA hB
    have hC2 : (0 : ℝ) < ((1 + (r1 + r2) / 2) / (1 - (r1 + r2) / 2)) ^ 2 := pow_pos hC 2
    calc (1 + r1) / (1 - r1) * ((1 + r2) / (1 - r2))
        = Real.exp (Real.log ((1 + r1) / (1 - r1) * ((1 + r2) / (1 - r2)))) :=
          (Real.exp_log hAB).symm
      _ = Real.exp (Real.log (((1 + (r1 + r2) / 2) / (1 - (r1 + r2) / 2)) ^ 2)) := by
          rw [hmul]
      _ = ((1 + (r1 + r2) / 2) / (1 - (r1 + r2) / 2)) ^ 2 := Real.exp_log hC2
  rw [div_mul_div_comm, div_pow,
    div_eq_div_iff (by positivity) (by positivity)] at habeq
  have key : (r1 + r2) * (r1 - r2) ^ 2 / 2 = 0 := by linear_combination habeq
  have key2 : (r1 + r2) * (r1 - r2) ^ 2 = 0 := by linarith
  rcases mul_eq_zero.mp key2 with hk | hk
  · exact hsum hk
  · exact hne (sub_eq_zero.mp (pow_eq_zero_iff two_ne_zero |>.mp hk))

/-- C1 witness: the amended inequality instantiated at `r1 = 1/2`,
`r2 = 1/4`. -/
theorem fisher_order_amended_witness :
    (arctanh (1/2) + arctanh (1/4)) / 2 ≠ arctanh (((1 : ℝ)/2 + 1/4) / 2) :=
  fisher_order_amended (1/2) (1/4) (by norm_num) (by norm_num) (by norm_num)
    (by norm_num) (by norm_num) (by norm_num)

/-! ## Dice overlap

`compute_dice` (cluster script, lines 283-288, with an explicit mask) and
`compute_dice_coefficient` (longitudinal script, lines 455-470, no mask).
Accuracy maps are modelled as flattened lists of values. -/

def countTrue (l : List Bool) : Nat := (l.filter fun b => b).length

/-- Source: `(map > threshold) & mask`. -/
def binarizeMasked (m : List ℚ) (mask : List Bool) (threshold : ℚ) : List Bool :=
  (m.zip mask).map fun p => decide (threshold < p.1) && p.2

/-- Source: `map > threshold` (longitudinal variant, no mask). -/
def binarize (m : List ℚ) (threshold : ℚ) : List Bool :=
  m.map fun v => decide (threshold < v)

/-- Source: `compute_dice(map1, map2, mask, threshold)`:
`2 * |bin1 & bin2| / (|bin1| + |bin2|)` when the denominator is positive,
otherwise 0. -/
def compute_dice (map1 map2 : List ℚ) (mask : List Bool) (threshold : ℚ) : ℚ :=
  let bin1 := binarizeMasked map1 mask threshold
  let bin2 := binarizeMasked map2 mask threshold
  let inter := countTrue (bin1.zipWith (fun a b => a && b) bin2)
  let total := countTrue bin1 + countTrue bin2
  if 0 < total then 2 * (inter : ℚ) / (total : ℚ) else 0

/-- Source: `compute_dice_coefficient(map1, map2, threshold)`: returns 0.0 when both
thresholded sets are empty, else `2|A∩B|/(|A|+|B|)`. -/
def compute_dice_coefficient (map1 map2 : List ℚ) (threshold : ℚ) : ℚ :=
  let binary1 := binarize map1 threshold
  let binary2 := binarize map2 threshold
  let inter := countTrue (binary1.zipWith (fun a b => a && b) binary2)
  if countTrue binary1 + countTrue binary2 = 0 then 0
  else 2 * (inter : ℚ) / ((countTrue binary1 + countTrue binary2 : Nat) : ℚ)

theorem zipWith_and_self (l : List Bool) : l.zipWith (fun a b => a && b) l = l := by
  induction l with
  | nil => rfl
  | cons a rest ih => simp [List.zipWith, ih]

unseal Rat.add Rat.mul Rat.inv Rat.sub in
/-- C8 counterexample: the Dice overlap of a map with itself is 0, not 1,
when no voxel survives the threshold — both variants return their
empty-denominator fallback 0. -/
theorem dice_self_counterexample :
    compute_dice [0] [0] [true] (11/20) = 0
    ∧ compute_dice_coefficient [0] [0] (1/2) = 0
    ∧ ((0 : ℚ) ≠ 1) := by
  refine ⟨by decide, by decide, by decide⟩

/-- C8 (amended): Dice of a map with itself (same threshold) is exactly 1
whenever at least one voxel survives the threshold, and 0 when none does;
Dice of maps with disjoint thresholded sets is exactly 0 — for both the
masked and the unmasked variant. -/
theorem dice_amended (m1 m2 : List ℚ) (mask : List Bool) (t : ℚ) :
    (0 < countTrue (binarizeMasked m1 mask t) → compute_dice m1 m1 mask t = 1)
    ∧ (countTrue (binarizeMasked m1 mask t) = 0 → compute_dice m1 m1 mask t = 0)
    ∧ (countTrue ((binarizeMasked m1 mask t).zipWith (fun a b => a && b)
          (binarizeMasked m2 mask t)) = 0 → compute_dice m1 m2 mask t = 0)
    ∧ (0 < countTrue (binarize m1 t) → compute_dice_coefficient m1 m1 t = 1)
    ∧ (countTrue (binarize m1 t) = 0 → compute_dice_coefficient m1 m1 t = 0)
    ∧ (countTrue ((binarize m1 t).zipWith (fun a b => a && b) (binarize m2 t)) = 0 →
        compute_dice_coefficient m1 m2 t = 0) := by
  refine ⟨?_, ?_, ?_, ?_, ?_, ?_⟩
  · intro hpos
    simp only [compute_dice]
    rw [zipWith_and_self]
    rw [if_pos (by omega)]
    have hc : ((countTrue (binarizeMasked m1 mask t) : ℚ)) ≠ 0 := by
      exact_mod_cast Nat.pos_iff_ne_zero.mp hpos
    push_cast
    field_simp
    ring
  · intro hzero
    simp only [compute_dice]
    rw [zipWith_and_self, hzero]
    simp
  · intro hint
    simp only [compute_dice]
    rw [hint]
    split
    · simp
    · rfl
  · intro hpos
    simp only [compute_dice_coefficient]
    rw [zipWith_and_self]
    rw [if_neg (by omega)]
    have hc : ((countTrue (binarize m1 t) : ℚ)) ≠ 0 := by
      exact_mod_cast Nat.pos_iff_ne_zero.mp hpos
    push_cast
    field_simp
    ring
  · intro hzero
    simp only [compute_dice_coefficient]
    rw [zipWith_and_self, hzero]
    simp
  · intro hint
    simp only [compute_dice_coefficient]
    rw [hint]
    split
    · rfl
    · simp

unseal Rat.add Rat.mul Rat.inv Rat.sub in
/-- C8 witness: the amended Dice identities evaluated on concrete maps —
self-overlap 1 on a surviving map, 0 on an empty one, 0 for disjoint maps. -/
theorem dice_amended_witness :
    compute_dice [1] [1] [true] (1/2) = 1
    ∧ compute_dice [1, 0] [0, 1] [true, true] (1/2) = 0
    ∧ compute_dice_coefficient [1] [1] (1/2) = 1
    ∧ compute_dice_coefficient [0] [0] (11/20) = 0 :=
  ⟨(dice_amended [1] [1] [true] (1/2)).1 (by decide),
   (dice_amended [1, 0] [0, 1] [true, true] (1/2)).2.2.1 (by decide),
   (dice_amended [1] [1] [] (1/2)).2.2.2.1 (by decide),
   (dice_amended [0] [0] [] (11/20)).2.2.2.2.1 (by decide)⟩

/-! ## Longitudinal Comparator: exclusion of insufficient data

`compute_all_metrics` (lines 506-595) skips every subject x ROI with fewer
than two sessions carrying an RDM (`continue`) or fewer than four valid
categories; `run_analysis` (lines 736-772) builds the control bootstrap
sample only from subjects whose bilateral and unilateral means are both
non-NaN, and reports a patient with a NaN mean as "insufficient data"
instead of a difference.  NaN means (means of empty selections) are modelled
as `Option.none`. -/

/-- The per-ROI fields `compute_all_metrics` reads before its guards. -/
structure RoiData where
  rdmSessions : List Nat
  validCats : Option (List Nat)
  deriving DecidableEq

/-- The fields of an output row relevant to the guards. -/
structure MetricsRow where
  subject : Nat
  roiKey : Nat
  nSessions : Nat
  deriving DecidableEq

/-- The row-production skeleton of `compute_all_metrics`: one row per
subject x ROI that passes both `continue` guards, no row otherwise. -/
def compute_all_metrics_rows (subjects : List (Nat × List (Nat × RoiData))) :
    List MetricsRow :=
  subjects.flatMap fun s =>
    s.2.filterMap fun rk =>
      if rk.2.rdmSessions.length < 2 then none
      else
        match rk.2.validCats with
        | none => none
        | some vc =>
            if vc.length < 4 then none
            else some ⟨s.1, rk.1, rk.2.rdmSessions.length⟩

/-- The control-distribution construction in `run_analysis`: a subject enters
`ctrl_diffs` only when both its bilateral and unilateral means exist
(`not isnan(b) and not isnan(u)`), contributing `b - u`. -/
def ctrl_diffs (subs : List (Option ℚ × Option ℚ)) : List ℚ :=
  subs.filterMap fun s =>
    match s.1, s.2 with
    | some bv, some uv => some (bv - uv)
    | _, _ => none

/-- What `run_analysis` prints per patient: a flagged "insufficient data"
line, or the bilateral-minus-unilateral difference. -/
inductive PatientResult
  | insufficient
  | diff (d : ℚ)
  deriving DecidableEq

def patient_report (b u : Option ℚ) : PatientResult :=
  match b, u with
  | some bv, some uv => .diff (bv - uv)
  | _, _ => .insufficient

/-- C9: a subject x ROI appears in the metrics table iff it has at least two
RDM sessions and four valid categories (rows record that session count, so
no zero-session or single-session row exists); every control bootstrap entry
comes from a subject with both means present (missing subjects contribute
nothing — they are dropped, not zero-filled); a patient with a missing mean
is reported as insufficient data. -/
theorem missing_data_excluded (subjects : List (Nat × List (Nat × RoiData)))
    (row : MetricsRow) (subs : List (Option ℚ × Option ℚ)) (b u : Option ℚ) :
    (row ∈ compute_all_metrics_rows subjects ↔
      ∃ s ∈ subjects, ∃ rk ∈ s.2, 2 ≤ rk.2.rdmSessions.length ∧
        (∃ vc, rk.2.validCats = some vc ∧ 4 ≤ vc.length) ∧
        row = ⟨s.1, rk.1, rk.2.rdmSessions.length⟩)
    ∧ (∀ x ∈ ctrl_diffs subs, ∃ bv uv, (some bv, some uv) ∈ subs ∧ x = bv - uv)
    ∧ ctrl_diffs subs = ctrl_diffs (subs.filter fun s => s.1.isSome && s.2.isSome)
    ∧ ((b = none ∨ u = none) → patient_report b u = .insufficient) := by
  refine ⟨?_, ?_, ?_, ?_⟩
  · simp only [compute_all_metrics_rows, List.mem_flatMap, List.mem_filterMap]
    constructor
    · rintro ⟨s, hs, rk, hrk, hf⟩
      refine ⟨s, hs, rk, hrk, ?_⟩
      split at hf
      · exact absurd hf (by simp)
      · rename_i hlen
        split at hf
        · exact absurd hf (by simp)
        · rename_i vc hvc
          split at hf
          · exact absurd hf (by simp)
          · rename_i h4
            exact ⟨by omega, ⟨vc, hvc, by omega⟩, (Option.some.inj hf).symm⟩
    · rintro ⟨s, hs, rk, hrk, hlen, ⟨vc, hvc, h4⟩, hrow⟩
      refine ⟨s, hs, rk, hrk, ?_⟩
      rw [if_neg (by omega)]
      simp only [hvc]
      rw [if_neg (by omega), hrow]
  · intro x hx
    simp only [ctrl_diffs, List.mem_filterMap] at hx
    obtain ⟨s, hs, hsx⟩ := hx
    obtain ⟨b1, u1⟩ := s
    cases b1 with
    | none => simp at hsx
    | some bv =>
      cases u1 with
      | none => simp at hsx
      | some uv =>
        exact ⟨bv, uv, hs, (Option.some.inj hsx).symm⟩
  · induction subs with
    | nil => rfl
    | cons s rest ih =>
      obtain ⟨b1, u1⟩ := s
      cases b1 with
      | none => simpa [ctrl_diffs, List.filter] using ih
      | some bv =>
        cases u1 with
        | none => simpa [ctrl_diffs, List.filter] using ih
        | some uv =>
          simp only [ctrl_diffs, List.filter, List.filterMap] at ih ⊢
          simpa using ih
  · intro h
    rcases h with h | h
    · rw [h]
      unfold patient_report
      rfl
    · rw [h]
      unfold patient_report
      cases b <;> rfl

unseal Rat.add Rat.mul Rat.inv Rat.sub in
/-- C9 witness: a concrete control set where the subject with a missing
unilateral mean is dropped from the bootstrap sample, one metrics-table
instance, and a patient with a missing mean reported as insufficient. -/
theorem missing_data_excluded_witness :
    ((⟨7, [(3, ⟨[1, 2], some [0, 1, 2, 3]⟩)]⟩ : Nat × List (Nat × RoiData)) ∈
        [(⟨7, [(3, ⟨[1, 2], some [0, 1, 2, 3]⟩)]⟩ : Nat × List (Nat × RoiData))]
      ∧ (⟨7, 3, 2⟩ : MetricsRow) ∈
        compute_all_metrics_rows [⟨7, [(3, ⟨[1, 2], some [0, 1, 2, 3]⟩)]⟩])
    ∧ (∃ bv uv, ((some bv, some uv) : Option ℚ × Option ℚ) ∈
        [((some 3, some 1) : Option ℚ × Option ℚ), (none, some 5)] ∧ (2 : ℚ) = bv - uv)
    ∧ patient_report (none : Option ℚ) (some 4) = .insufficient := by
  refine ⟨⟨by decide, ?_⟩, ?_, ?_⟩
  · exact (missing_data_excluded [⟨7, [(3, ⟨[1, 2], some [0, 1, 2, 3]⟩)]⟩]
      ⟨7, 3, 2⟩ [] none none).1.mpr
      ⟨(7, [(3, ⟨[1, 2], some [0, 1, 2, 3]⟩)]), by decide,
       (3, ⟨[1, 2], some [0, 1, 2, 3]⟩), by decide, by decide,
       ⟨[0, 1, 2, 3], rfl, by decide⟩, rfl⟩
  · exact (missing_data_excluded [] ⟨0, 0, 0⟩
      [((some 3, some 1) : Option ℚ × Option ℚ), (none, some 5)] none none).2.1
      2 (by decide)
  · exact (missing_data_excluded [] ⟨0, 0, 0⟩ [] (none : Option ℚ) (some 4)).2.2.2
      (Or.inl rfl)

/-! ## Cross-Validated Classifier guards

`svm_cv` (cluster script, lines 203-213) and `classify_sphere`
(longitudinal script, lines 406-432).  The searchlight hands each sphere a
block `data[0]` of shape `(x, y, z, n_samples)`; `bold =
data[0].reshape(-1, data[0].shape[-1]).T` has shape `(n_samples, n_voxels)`,
so `bold.shape[1]` counts the voxels of the sphere.  The sklearn calls
(`cross_val_score`, the per-fold `fit`/`score` loop) are third-party code and
are modelled as oracle arguments: an `Except` capturing either the returned
mean accuracy or a raised exception (`svm_cv` wraps them in a bare
`try/except`; `classify_sphere` has no handler, so its oracle is the plain
per-fold score list). -/

/-- Shape of the 4-D sphere block `data[0]`. -/
structure SphereBlockShape where
  x : Nat
  y : Nat
  z : Nat
  samples : Nat
  deriving DecidableEq

/-- Source: `bold.shape` after `reshape(-1, shape[-1]).T`: `(samples, x*y*z)`. -/
def boldShape (s : SphereBlockShape) : Nat × Nat := (s.samples, s.x * s.y * s.z)

/-- Source: `svm_cv`: return 0.5 if `bold.shape[1] < 5`, otherwise the mean
cross-validated accuracy, with any exception converted to 0.5. -/
def svm_cv (s : SphereBlockShape) (cvScoreMean : Except String ℚ) : ℚ :=
  if (boldShape s).2 < 5 then 1/2
  else
    match cvScoreMean with
    | .ok a => a
    | .error _ => 1/2

/-- Source: `np.std(column) > 0` for one voxel column: the column is not constant.
(Empty columns never occur: each sphere block carries `n_samples ≥ 1`
samples.) -/
def stdPos (col : List ℚ) : Bool := !(col.all fun v => decide (v = col.headD 0))

/-- Source: `classify_sphere`: drop zero-variance voxels, return 0.5 when fewer than
3 remain, else the mean of the per-fold scores.  `sphereData` lists each
voxel's values across samples (the rows of `data4D.reshape(-1, n_samples)`);
there is no exception handler in this function. -/
def classify_sphere (sphereData : List (List ℚ)) (cvScores : List ℚ) : ℚ :=
  let validCount := (sphereData.filter fun col => stdPos col).length
  if validCount < 3 then 1/2
  else cvScores.sum / (cvScores.length : ℚ)

unseal Rat.add Rat.mul Rat.inv Rat.sub in
/-- C6 counterexample: a sphere block with 8 voxels but only 4 samples passes
the `bold.shape[1] < 5` guard (it counts voxels, not samples), so a
successful classifier run returns its accuracy 3/4 — not the claimed flagged
chance value 0.5. -/
theorem chance_guard_counterexample :
    (⟨2, 2, 2, 4⟩ : SphereBlockShape).samples < 5
    ∧ svm_cv ⟨2, 2, 2, 4⟩ (.ok (3/4)) = 3/4
    ∧ ((3 : ℚ)/4 ≠ 1/2) := by
  refine ⟨by decide, by decide, by decide⟩

/-- C6 (amended): the chance-level guard of `svm_cv` fires on spheres with
fewer than 5 voxels (features) — the sample count is not checked — and any
exception raised by fitting/scoring (degenerate folds included) is converted
to 0.5; otherwise the classifier's accuracy is returned as-is, with no
"uninformative" flag distinguishing a guard 0.5 from a genuine one.
`classify_sphere` analogously returns 0.5 when fewer than 3 voxels have
nonzero variance, else the plain mean of the fold scores. -/
theorem chance_guard_amended (s : SphereBlockShape) (r : Except String ℚ)
    (e : String) (a : ℚ) (d : List (List ℚ)) (scores : List ℚ) :
    (s.x * s.y * s.z < 5 → svm_cv s r = 1/2)
    ∧ svm_cv s (.error e) = 1/2
    ∧ (5 ≤ s.x * s.y * s.z → svm_cv s (.ok a) = a)
    ∧ ((d.filter fun col => stdPos col).length < 3 → classify_sphere d scores = 1/2)
    ∧ (3 ≤ (d.filter fun col => stdPos col).length →
        classify_sphere d scores = scores.sum / (scores.length : ℚ)) := by
  refine ⟨?_, ?_, ?_, ?_, ?_⟩
  · intro h
    simp only [svm_cv, boldShape]
    rw [if_pos h]
  · simp only [svm_cv, boldShape]
    split
    · rfl
    · rfl
  · intro h
    simp only [svm_cv, boldShape]
    rw [if_neg (by omega)]
  · intro h
    simp only [classify_sphere]
    rw [if_pos h]
  · intro h
    simp only [classify_sphere]
    rw [if_neg (by omega)]

unseal Rat.add Rat.mul Rat.inv Rat.sub in
/-- C6 witness: the amended guards evaluated concretely — a 2-voxel sphere is
forced to 0.5 even when the classifier would report 9/10; an 8-voxel sphere
returns the classifier's 3/4; a sphere with one varying voxel yields 0.5 from
`classify_sphere`; one with three varying voxels yields the mean score 3/4. -/
theorem chance_guard_amended_witness :
    svm_cv ⟨1, 1, 2, 30⟩ (.ok (9/10)) = 1/2
    ∧ svm_cv ⟨2, 2, 2, 4⟩ (.ok (3/4)) = 3/4
    ∧ classify_sphere [[1, 1], [2, 3]] [1] = 1/2
    ∧ classify_sphere [[0, 1], [0, 2], [0, 3]] [1/2, 1] = 3/4 :=
  ⟨(chance_guard_amended ⟨1, 1, 2, 30⟩ (.ok (9/10)) "" 0 [] []).1 (by decide),
   (chance_guard_amended ⟨2, 2, 2, 4⟩ (.ok (3/4)) "" (3/4) [] []).2.2.1 (by decide),
   (chance_guard_amended ⟨0, 0, 0, 0⟩ (.ok 0) "" 0 [[1, 1], [2, 3]] [1]).2.2.2.1 (by decide),
   by
     rw [(chance_guard_amended ⟨0, 0, 0, 0⟩ (.ok 0) "" 0
       [[0, 1], [0, 2], [0, 3]] [1/2, 1]).2.2.2.2 (by decide)]
     decide⟩

/-! ## Cross-session standardization

`svm_cross_temporal` (cluster script, lines 229-241) and
`cross_temporal_decoding` (longitudinal script, lines 508-540).
`StandardScaler` is modelled exactly: `fit` stores per-column mean and
`scale_ = sqrt(var)` (population variance, zeros replaced by 1, per sklearn's
`handle_zeros_in_scale`); `transform` applies `(x - mean) / scale` with the
stored parameters.  The linear SVM itself is third-party and is an oracle
taking the standardized (train, test) data;  in `svm_cross_temporal` its
outcome is an `Except` (the code wraps it in a bare `try/except` returning
0.5), while the longitudinal pipeline has no handler there. -/

/-- Mean of column `j` across the rows (samples) of `X`. -/
noncomputable def colMean (X : List (List ℝ)) (j : Nat) : ℝ :=
  ((X.map fun row => row.getD j 0).sum) / (X.length : ℝ)

/-- Population variance of column `j` (sklearn uses `ddof = 0`). -/
noncomputable def colVar (X : List (List ℝ)) (j : Nat) : ℝ :=
  ((X.map fun row => (row.getD j 0 - colMean X j) ^ 2).sum) / (X.length : ℝ)

/-- The state a fitted `StandardScaler` holds: `mean_` and `scale_`. -/
structure Scaler where
  mean : Nat → ℝ
  scale : Nat → ℝ

/-- Source: `StandardScaler.fit`: store per-column mean and `sqrt` of the variance,
with zero variances mapped to scale 1. -/
noncomputable def fitScaler (X : List (List ℝ)) : Scaler where
  mean := fun j => colMean X j
  scale := fun j => if colVar X j = 0 then 1 else Real.sqrt (colVar X j)

/-- Source: `StandardScaler.transform` with the stored parameters. -/
noncomputable def scalerTransform (sc : Scaler) (X : List (List ℝ)) : List (List ℝ) :=
  X.map fun row => row.mapIdx fun j v => (v - sc.mean j) / sc.scale j

/-- Source: `svm_cross_temporal(data, ...)`: guard on `bold1.shape[1] < 5`, then
`clf.fit(scaler.fit_transform(bold1), y1)` and
`clf.score(scaler.transform(bold2), y2)` — the single `scaler` object is
fitted once on `bold1` and reused on `bold2`; exceptions yield 0.5. -/
noncomputable def svm_cross_temporal
    (clf : List (List ℝ) × List Nat → List (List ℝ) × List Nat → Except String ℝ)
    (bold1 : List (List ℝ)) (y1 : List Nat)
    (bold2 : List (List ℝ)) (y2 : List Nat) : ℝ :=
  if (bold1.headD []).length < 5 then 1/2
  else
    let scaler := fitScaler bold1
    match clf (scalerTransform scaler bold1, y1) (scalerTransform scaler bold2, y2) with
    | .ok a => a
    | .error _ => 1/2

/-- The leakage variant the spec rules out: standardization parameters
recomputed on the test session.  Stated from the spec's words purely as a
foil; the code does not implement this. -/
noncomputable def svm_cross_temporal_refit
    (clf : List (List ℝ) × List Nat → List (List ℝ) × List Nat → Except String ℝ)
    (bold1 : List (List ℝ)) (y1 : List Nat)
    (bold2 : List (List ℝ)) (y2 : List Nat) : ℝ :=
  if (bold1.headD []).length < 5 then 1/2
  else
    match clf (scalerTransform (fitScaler bold1) bold1, y1)
        (scalerTransform (fitScaler bold2) bold2, y2) with
    | .ok a => a
    | .error _ => 1/2

/-- Source: `X_flat[:, mask_flat]`: keep the columns where the flattened mask is
true. -/
def applyMaskCols (mask : List Bool) (X : List (List ℝ)) : List (List ℝ) :=
  X.map fun row => (row.zip mask).filterMap fun p => if p.2 then some p.1 else none

/-- Source: `make_pipeline(StandardScaler(), SVC()).fit(Xtr, ytr).score(Xte, yte)`:
the pipeline fits the scaler on the training data and applies the stored
parameters when scoring. -/
noncomputable def pipeline_fit_score
    (svc : List (List ℝ) × List Nat → List (List ℝ) × List Nat → ℝ)
    (Xtr : List (List ℝ)) (ytr : List Nat)
    (Xte : List (List ℝ)) (yte : List Nat) : ℝ :=
  let scaler := fitScaler Xtr
  svc (scalerTransform scaler Xtr, ytr) (scalerTransform scaler Xte, yte)

structure CrossTemporalResult where
  forward : ℝ
  backward : ℝ
  meanAcc : ℝ

/-- Source: `cross_temporal_decoding`: mask both sessions' flattened patterns, train
on session 1 / test on session 2, then the reverse, and average. -/
noncomputable def cross_temporal_decoding
    (svc : List (List ℝ) × List Nat → List (List ℝ) × List Nat → ℝ)
    (X1 : List (List ℝ)) (y1 : List Nat) (X2 : List (List ℝ)) (y2 : List Nat)
    (mask : List Bool) : CrossTemporalResult :=
  let X1m := applyMaskCols mask X1
  let X2m := applyMaskCols mask X2
  let f := pipeline_fit_score svc X1m y1 X2m y2
  let b := pipeline_fit_score svc X2m y2 X1m y1
  ⟨f, b, (f + b) / 2⟩

/-- Probe classifier used to observe the standardized test features: its
"score" is the first standardized test value. -/
def probeClf : List (List ℝ) × List Nat → List (List ℝ) × List Nat → Except String ℝ :=
  fun _ te => .ok ((te.1.headD []).getD 0 0)

/-- Training-session data for the C7 probe: two samples, five voxels, every
column `{0, 2}` (mean 1, population variance 1, scale 1). -/
def probeB1 : List (List ℝ) := [[0, 0, 0, 0, 0], [2, 2, 2, 2, 2]]

/-- Test-session data for the C7 probe: every column `{1, 3}` (mean 2,
variance 1). -/
def probeB2 : List (List ℝ) := [[1, 1, 1, 1, 1], [3, 3, 3, 3, 3]]

theorem probe_scaler_facts :
    (∀ j, j < 5 → colMean probeB1 j = 1 ∧ colVar probeB1 j = 1)
    ∧ (∀ j, j < 5 → colMean probeB2 j = 2 ∧ colVar probeB2 j = 1) := by
  constructor
  · intro j hj
    interval_cases j <;>
      constructor <;>
        simp [colMean, colVar, probeB1] <;> norm_num
  · intro j hj
    interval_cases j <;>
      constructor <;>
        simp [colMean, colVar, probeB2] <;> norm_num

theorem probe_transform_train :
    scalerTransform (fitScaler probeB1) probeB2 = [[0, 0, 0, 0, 0], [2, 2, 2, 2, 2]] := by
  have hm := probe_scaler_facts.1
  simp only [scalerTransform, fitScaler, probeB2, List.map_cons, List.map_nil]
  have hscale : ∀ j, j < 5 →
      (if colVar probeB1 j = 0 then (1 : ℝ) else Real.sqrt (colVar probeB1 j)) = 1 := by
    intro j hj
    rw [(hm j hj).2]
    norm_num
  congr 1
  · show List.mapIdx (fun j v => (v - colMean probeB1 j) /
      (if colVar probeB1 j = 0 then (1 : ℝ) else Real.sqrt (colVar probeB1 j))) [1, 1, 1, 1, 1]
      = [0, 0, 0, 0, 0]
    simp only [List.mapIdx_cons, List.mapIdx_nil]
    rw [hscale 0 (by norm_num), hscale 1 (by norm_num), hscale 2 (by norm_num),
      hscale 3 (by norm_num), hscale 4 (by norm_num),
      (hm 0 (by norm_num)).1, (hm 1 (by norm_num)).1, (hm 2 (by norm_num)).1,
      (hm 3 (by norm_num)).1, (hm 4 (by norm_num)).1]
    norm_num
  · congr 1
    show List.mapIdx (fun j v => (v - colMean probeB1 j) /
      (if colVar probeB1 j = 0 then (1 : ℝ) else Real.sqrt (colVar probeB1 j))) [3, 3, 3, 3, 3]
      = [2, 2, 2, 2, 2]
    simp only [List.mapIdx_cons, List.mapIdx_nil]
    rw [hscale 0 (by norm_num), hscale 1 (by norm_num), hscale 2 (by norm_num),
      hscale 3 (by norm_num), hscale 4 (by norm_num),
      (hm 0 (by norm_num)).1, (hm 1 (by norm_num)).1, (hm 2 (by norm_num)).1,
      (hm 3 (by norm_num)).1, (hm 4 (by norm_num)).1]
    norm_num

theorem probe_transform_refit :
    scalerTransform (fitScaler probeB2) probeB2 = [[-1, -1, -1, -1, -1], [1, 1, 1, 1, 1]] := by
  have hm := probe_scaler_facts.2
  simp only [scalerTransform, fitScaler, probeB2, List.map_cons, List.map_nil]
  have hscale : ∀ j, j < 5 →
      (if colVar probeB2 j = 0 then (1 : ℝ) else Real.sqrt (colVar probeB2 j)) = 1 := by
    intro j hj
    rw [(hm j hj).2]
    norm_num
  congr 1
  · show List.mapIdx (fun j v => (v - colMean probeB2 j) /
      (if colVar probeB2 j = 0 then (1 : ℝ) else Real.sqrt (colVar probeB2 j))) [1, 1, 1, 1, 1]
      = [-1, -1, -1, -1, -1]
    simp only [List.mapIdx_cons, List.mapIdx_nil]
    rw [hscale 0 (by norm_num), hscale 1 (by norm_num), hscale 2 (by norm_num),
      hscale 3 (by norm_num), hscale 4 (by norm_num),
      (hm 0 (by norm_num)).1, (hm 1 (by norm_num)).1, (hm 2 (by norm_num)).1,
      (hm 3 (by norm_num)).1, (hm 4 (by norm_num)).1]
    norm_num
  · congr 1
    show List.mapIdx (fun j v => (v - colMean probeB2 j) /
      (if colVar probeB2 j = 0 then (1 : ℝ) else Real.sqrt (colVar probeB2 j))) [3, 3, 3, 3, 3]
      = [1, 1, 1, 1, 1]
    simp only [List.mapIdx_cons, List.mapIdx_nil]
    rw [hscale 0 (by norm_num), hscale 1 (by norm_num), hscale 2 (by norm_num),
      hscale 3 (by norm_num), hscale 4 (by norm_num),
      (hm 0 (by norm_num)).1, (hm 1 (by norm_num)).1, (hm 2 (by norm_num)).1,
      (hm 3 (by norm_num)).1, (hm 4 (by norm_num)).1]
    norm_num

/-- C7: the cross-session classifiers standardize the test session with the
parameters fitted on the training session only — the result depends on the
test data exclusively through the train-fitted transform (for both scripts'
variants), and on a concrete probe the code's reused-parameter value (0)
differs from the recompute-on-test foil (-1), showing the parameters are
genuinely reused rather than recomputed. -/
theorem scaler_reuse_cross_session :
    (∀ clf b1 y1 b2 b2' y2,
      scalerTransform (fitScaler b1) b2 = scalerTransform (fitScaler b1) b2' →
      svm_cross_temporal clf b1 y1 b2 y2 = svm_cross_temporal clf b1 y1 b2' y2)
    ∧ (∀ svc X1 y1 X2 X2' y2 mask,
      scalerTransform (fitScaler (applyMaskCols mask X1)) (applyMaskCols mask X2) =
        scalerTransform (fitScaler (applyMaskCols mask X1)) (applyMaskCols mask X2') →
      (cross_temporal_decoding svc X1 y1 X2 y2 mask).forward =
        (cross_temporal_decoding svc X1 y1 X2' y2 mask).forward)
    ∧ svm_cross_temporal probeClf probeB1 [0, 1] probeB2 [0, 1] = 0
    ∧ svm_cross_temporal_refit probeClf probeB1 [0, 1] probeB2 [0, 1] = -1 := by
  refine ⟨?_, ?_, ?_, ?_⟩
  · intro clf b1 y1 b2 b2' y2 heq
    simp only [svm_cross_temporal, heq]
  · intro svc X1 y1 X2 X2' y2 mask heq
    simp only [cross_temporal_decoding, pipeline_fit_score, heq]
  · simp only [svm_cross_temporal]
    rw [if_neg (by simp [probeB1]), probe_transform_train]
    simp [probeClf]
  · simp only [svm_cross_temporal_refit]
    rw [if_neg (by simp [probeB1]), probe_transform_refit]
    simp [probeClf]

/-- C7 witness: the two invariance clauses applied at concrete inputs (the
trivially-equal transform hypothesis discharged by `rfl`). -/
theorem scaler_reuse_cross_session_witness :
    svm_cross_temporal probeClf probeB1 [0, 1] probeB2 [0, 1] =
      svm_cross_temporal probeClf probeB1 [0, 1] probeB2 [0, 1]
    ∧ (cross_temporal_decoding (fun _ _ => 0) probeB1 [0, 1] probeB2 [0, 1] []).forward =
      (cross_temporal_decoding (fun _ _ => 0) probeB1 [0, 1] probeB2 [0, 1] []).forward :=
  ⟨scaler_reuse_cross_session.1 probeClf probeB1 [0, 1] probeB2 probeB2 [0, 1] rfl,
   scaler_reuse_cross_session.2.1 (fun _ _ => 0) probeB1 [0, 1] probeB2 probeB2 [0, 1] [] rfl⟩

/-! ## Totality of the per-sphere classifiers (cluster script)

Both `svm_cv` and `svm_cross_temporal` wrap the entire fit/score in a bare
`except:` returning 0.5, so no sphere can raise out of the searchlight, and a
converted error is the same plain 0.5 a genuinely chance-level sphere
produces. -/

/-- C10: any classifier exception in `svm_cv` or `svm_cross_temporal` becomes
the value 0.5 (the functions are total), and that value is indistinguishable
from a genuine chance-level classifier result. -/
theorem sphere_classifier_total (s : SphereBlockShape) (e : String)
    (b1 b2 : List (List ℝ)) (y1 y2 : List Nat) :
    svm_cv s (.error e) = 1/2
    ∧ svm_cv s (.error e) = svm_cv s (.ok (1/2))
    ∧ svm_cross_temporal (fun _ _ => .error e) b1 y1 b2 y2 = 1/2
    ∧ svm_cross_temporal (fun _ _ => .error e) b1 y1 b2 y2 =
      svm_cross_temporal (fun _ _ => .ok (1/2)) b1 y1 b2 y2 := by
  refine ⟨?_, ?_, ?_, ?_⟩ <;> simp only [svm_cv, svm_cross_temporal] <;> split <;> rfl

end LongPt
